import Mathlib

/-! Shallow embedding of the rbc-timezone-utils date and time-zone helpers
(src/date.js and src/timezones/timezones.js).

JavaScript `Date` values are absolute instants stored as integer milliseconds
past the epoch; every arithmetic step the source performs on them stays on
integer millisecond values, which IEEE doubles represent exactly in the epoch
range, so instants are modelled as `Int`.

The moment-timezone collaborator and the runtime environment's default zone
are external to the repository; where a helper delegates to them they are
modelled from the spec (sections 3, 4.2, 6 and the glossary), as noted on each
definition. -/

namespace RTU

/-- Modelled from the spec (glossary: a zone is "a named region with its own
UTC offset rules (including daylight-saving transitions)"): the offset rule is
modelled with a single transition — offset `before` minutes prior to instant
`trans`, offset `after` minutes from `trans` on.  A fixed-offset zone (UTC,
or any whole- or non-whole-hour offset) has `before = after`. -/
structure Zone where
  trans : Int
  before : Int
  after : Int
  deriving DecidableEq

/-- The zone's UTC offset, in minutes, at instant `t`. -/
def Zone.offset (z : Zone) (t : Int) : Int :=
  if t < z.trans then z.before else z.after

/-- A zone whose offset is the constant `o` minutes. -/
def fixedZone (o : Int) : Zone := ⟨0, o, o⟩

/-- Wall-clock milliseconds of instant `t` as read in zone `z`.  The calendar
and clock fields (year, month, day, hour, minute, second, millisecond) that
the source reads off a moment or a Date are determined by, and determine, this
wall value, so a field tuple is represented by its wall milliseconds. -/
def wallOf (z : Zone) (t : Int) : Int := t + z.offset t * 60000

/-- Modelled from the spec (section 3 "Local value" and section 4.2):
constructing an instant from given wall-clock fields in a zone — this is what
the `new Date(year, month, day, hour, ...)` constructor does for the default
environment zone and what `moment.tz(fields, zone)` does for a named zone.
It returns an instant whose wall value in `z` is `w` whenever one exists,
preferring the pre-transition reading when the wall time is ambiguous (a
fall-back transition repeats a wall interval); a wall value that falls in a
spring-forward gap is unattainable and the pre-transition offset is applied
as the fallback. -/
def fromWall (z : Zone) (w : Int) : Int :=
  if w - z.before * 60000 < z.trans then w - z.before * 60000
  else if z.trans ≤ w - z.after * 60000 then w - z.after * 60000
  else w - z.before * 60000

/-- `shift(d, millis)` from src/date.js: `new Date(d.valueOf() + millis)`. -/
def shift (d millis : Int) : Int := d + millis

/-- `shiftDate(d, n)` from src/date.js: `shift(d, n * 24 * 60 * 60 * 1000)`. -/
def shiftDate (d n : Int) : Int := shift d (n * 24 * 60 * 60 * 1000)

/-- `shiftHour(d, n)` from src/date.js: `shift(d, n * 60 * 60 * 1000)`. -/
def shiftHour (d n : Int) : Int := shift d (n * 60 * 60 * 1000)

/-- C7: for every Instant `t` and every integer `n` (including negative and
zero), `shiftDate(t, n)` is the Instant whose epoch-millisecond value is that
of `t` plus `n * 86400000`; consequently `shiftDate(shiftDate(t, n), -n) = t`
exactly. -/
theorem shiftDate_spec (t n : Int) :
    shiftDate t n = t + n * 86400000 ∧ shiftDate (shiftDate t n) (-n) = t := by
  unfold shiftDate shift
  constructor <;> ring

/-- C10: for every Instant `t` and all integers `a`, `b`, `n`:
`shiftDate(shiftDate(t, a), b) = shiftDate(t, a + b)`, and
`shiftHour(t, 24 * n) = shiftDate(t, n)`. -/
theorem shift_algebra (t a b n : Int) :
    shiftDate (shiftDate t a) b = shiftDate t (a + b) ∧
    shiftHour t (24 * n) = shiftDate t n := by
  unfold shiftDate shiftHour shift
  constructor <;> ring

/-- `zonedToLocal(t, zone)` from src/timezones/timezones.js: reads the
calendar and clock fields of `t` in `zone` (`moment(t).tz(zone)` then
`.year() .. .millisecond()`), and builds a Date carrying those field values in
the default environment zone (`new Date(y, mo, d, h, mi, s, ms)`).  `defz` is
the environment's default zone. -/
def zonedToLocal (defz : Zone) (t : Int) (z : Zone) : Int :=
  fromWall defz (wallOf z t)

/-- `localToZoned(t, zone)` from src/timezones/timezones.js: reads the
default-zone fields of `t` (`t.getFullYear() .. t.getMilliseconds()`) and
constructs the instant carrying those field values in `zone`
(`moment.tz([fields], zone).toDate()`). -/
def localToZoned (defz : Zone) (t : Int) (z : Zone) : Int :=
  fromWall z (wallOf defz t)

/-- Constructing an instant in `z` from the wall value that `t` itself has in
`z` gives back `t`, provided `t` does not lie in the repeated wall-clock
interval right after a backward (fall-back) transition. -/
theorem fromWall_wallOf (z : Zone) (t : Int)
    (ht : t < z.trans ∨ z.trans + (z.before - z.after) * 60000 ≤ t) :
    fromWall z (wallOf z t) = t := by
  unfold fromWall wallOf Zone.offset
  split_ifs <;> omega

/-- C1 (amended): for every Instant `t` and zone `z` such that (a) the default
environment zone reproduces the wall value of `t`-in-`z` when the intermediate
local Date is constructed (the spec's section-3 Local-value invariant), and
(b) `t` does not lie in the repeated wall-clock interval right after a
backward (fall-back) offset transition of `z`,
`localToZoned(zonedToLocal(t, z), z) = t` exactly.  In particular the
round-trip holds at every `t` for UTC and for every fixed-offset zone,
including non-whole-hour and negative offsets. -/
theorem roundTrip_amended (defz z : Zone) (t : Int)
    (hdef : wallOf defz (fromWall defz (wallOf z t)) = wallOf z t)
    (ht : t < z.trans ∨ z.trans + (z.before - z.after) * 60000 ≤ t) :
    localToZoned defz (zonedToLocal defz t z) z = t := by
  unfold localToZoned zonedToLocal
  rw [hdef]
  exact fromWall_wallOf z t ht

/-- C1 witness: the amended round-trip instantiated with a UTC environment, a
fixed negative non-whole-hour zone (offset -09:30) and a concrete instant. -/
theorem roundTrip_witness :
    wallOf (fixedZone 0) (fromWall (fixedZone 0) (wallOf (fixedZone (-570)) 123456)) =
      wallOf (fixedZone (-570)) 123456 ∧
    localToZoned (fixedZone 0) (zonedToLocal (fixedZone 0) 123456 (fixedZone (-570)))
      (fixedZone (-570)) = 123456 :=
  ⟨by decide, roundTrip_amended (fixedZone 0) (fixedZone (-570)) 123456 (by decide)
    (by decide)⟩

/-- C1 counterexample: in a zone that falls back from offset +60 to offset 0
at instant 0, the instant 0 (wall time 00:00 on the repeated hour's second
pass) does not survive the round-trip: `zonedToLocal` sends it to the same
local Date as the instant one hour earlier, and `localToZoned` resolves that
wall time to the earlier instant -3600000, not to 0. -/
theorem roundTrip_cex :
    localToZoned (fixedZone 0) (zonedToLocal (fixedZone 0) 0 ⟨0, 60, 0⟩) ⟨0, 60, 0⟩ ≠ 0 := by
  decide

/-- The civil (year, month, day-of-month) triple of a wall value is in
bijection with its count of whole days since the epoch, so the triple read by
`getFullYear() / getMonth() / getDate()` is represented by that day count. -/
def dayNumber (w : Int) : Int := w / 86400000

/-- Milliseconds elapsed since the most recent wall midnight. -/
def msOfDay (w : Int) : Int := w % 86400000

/-- The `getHours()` field of a wall value. -/
def hourField (w : Int) : Int := msOfDay w / 3600000

/-- The `getMinutes()` field of a wall value. -/
def minuteField (w : Int) : Int := msOfDay w % 3600000 / 60000

/-- The `getSeconds()` field of a wall value. -/
def secondField (w : Int) : Int := msOfDay w % 60000 / 1000

/-- The `getMilliseconds()` field of a wall value. -/
def msField (w : Int) : Int := msOfDay w % 1000

/-- `toDate(d)` from src/date.js:
`new Date(d.getFullYear(), d.getMonth(), d.getDate())` — reads the date triple
of `d` in the default environment zone `defz` and constructs the default-zone
instant at that day's midnight (time fields zero, i.e. wall value
`dayNumber * 86400000`). -/
def toDate (defz : Zone) (t : Int) : Int :=
  fromWall defz (dayNumber (wallOf defz t) * 86400000)

/-- `isSameDay(a, b)` from src/date.js: compares the year, month and
day-of-month fields of `a` and `b` in the default environment zone; the triple
comparison is equality of the day numbers. -/
def isSameDay (defz : Zone) (a b : Int) : Bool :=
  dayNumber (wallOf defz a) == dayNumber (wallOf defz b)

theorem dayNumber_mul (k : Int) : dayNumber (k * 86400000) = k := by
  unfold dayNumber
  omega

/-- C8: for every Instant `t`, `toDate(t)` has hour, minute, second and
millisecond fields all zero and the same date fields as `t`, under the
environment's default zone — provided the default zone's Date constructor
reproduces the midnight wall value it is handed (the spec's section-3
Local-value invariant; it holds unconditionally for every fixed-offset
default zone). -/
theorem toDate_spec (defz : Zone) (t : Int)
    (h : wallOf defz (fromWall defz (dayNumber (wallOf defz t) * 86400000)) =
      dayNumber (wallOf defz t) * 86400000) :
    hourField (wallOf defz (toDate defz t)) = 0 ∧
    minuteField (wallOf defz (toDate defz t)) = 0 ∧
    secondField (wallOf defz (toDate defz t)) = 0 ∧
    msField (wallOf defz (toDate defz t)) = 0 ∧
    dayNumber (wallOf defz (toDate defz t)) = dayNumber (wallOf defz t) := by
  unfold toDate
  rw [h]
  unfold hourField minuteField secondField msField msOfDay dayNumber
  refine ⟨?_, ?_, ?_, ?_, ?_⟩ <;> omega

/-- C8 witness: `toDate` at a concrete instant in a fixed-offset environment
zone of -08:00. -/
theorem toDate_witness :
    hourField (wallOf (fixedZone (-480)) (toDate (fixedZone (-480)) 1516741496789)) = 0 ∧
    minuteField (wallOf (fixedZone (-480)) (toDate (fixedZone (-480)) 1516741496789)) = 0 ∧
    secondField (wallOf (fixedZone (-480)) (toDate (fixedZone (-480)) 1516741496789)) = 0 ∧
    msField (wallOf (fixedZone (-480)) (toDate (fixedZone (-480)) 1516741496789)) = 0 ∧
    dayNumber (wallOf (fixedZone (-480)) (toDate (fixedZone (-480)) 1516741496789)) =
      dayNumber (wallOf (fixedZone (-480)) 1516741496789) :=
  toDate_spec (fixedZone (-480)) 1516741496789 (by decide)

/-- C9: `toDate` is idempotent and `isSameDay(toDate(t), t)` holds, under the
same section-3 environment invariant as C8 (automatic for every fixed-offset
default zone). -/
theorem toDate_idem (defz : Zone) (t : Int)
    (h : wallOf defz (fromWall defz (dayNumber (wallOf defz t) * 86400000)) =
      dayNumber (wallOf defz t) * 86400000) :
    toDate defz (toDate defz t) = toDate defz t ∧
    isSameDay defz (toDate defz t) t = true := by
  have hwall : wallOf defz (toDate defz t) = dayNumber (wallOf defz t) * 86400000 := h
  have hday : dayNumber (wallOf defz (toDate defz t)) = dayNumber (wallOf defz t) := by
    rw [hwall, dayNumber_mul]
  constructor
  · show fromWall defz (dayNumber (wallOf defz (toDate defz t)) * 86400000) = toDate defz t
    rw [hday]
    rfl
  · unfold isSameDay
    rw [hday]
    exact beq_self_eq_true _

/-- C9 witness: idempotence and same-day at a concrete instant in a
fixed-offset environment zone of +05:30. -/
theorem toDate_idem_witness :
    toDate (fixedZone 330) (toDate (fixedZone 330) 98765432101) =
      toDate (fixedZone 330) 98765432101 ∧
    isSameDay (fixedZone 330) (toDate (fixedZone 330) 98765432101) 98765432101 = true :=
  toDate_idem (fixedZone 330) 98765432101 (by decide)

/-- Fueled bit-length helper; the fuel bounds the recursion depth, which is
the number of binary digits of the second argument. -/
def bitLenAux : Nat → Nat → Nat
  | 0, _ => 0
  | f + 1, n => if n = 0 then 0 else bitLenAux f (n / 2) + 1

/-- Number of binary digits of `n` (zero for zero).  The fuel 4000 vastly
exceeds the bit lengths arising from any value in the binary64 finite range
(exponents span [-1074, 1024]), so the function is exact on every number the
double pipeline below can touch. -/
def bitLen (n : Nat) : Nat := bitLenAux 4000 n

/-- IEEE binary64 rounding of the nonnegative rational `a / b` (for `b > 0`),
as an exact mantissa and binary exponent pair `(m, e)` of value `m * 2 ^ e`:
round to nearest with a 53-bit significand, ties to the even significand.
Normal range only — the values reached through `humanizedDuration` are far
from the subnormal and overflow thresholds, where this model and binary64
agree.  The exponent is located with a floor of the base-2 logarithm of
`a / b`, and the significand is the correctly rounded 53-bit value. -/
def flRat (a b : Nat) : Nat × Int :=
  if a = 0 then (0, 0)
  else
    let s := bitLen b + 54
    let n0 := a * 2 ^ s / b
    let e : Int := ((bitLen n0 : Int) - 1 - s) - 52
    let A := if e ≤ 0 then a * 2 ^ (-e).toNat else a
    let B := if e ≤ 0 then b else b * 2 ^ e.toNat
    let m0 := A / B
    let r := A % B
    let m := if 2 * r < B then m0
      else if B < 2 * r then m0 + 1
      else if m0 % 2 = 0 then m0 else m0 + 1
    (m, e)

/-- The rendering `(minutes / 60.0).toFixed(1)` from src/date.js, followed
through the source's double-precision pipeline: `minutes` is the binary64
quotient `diff / 60000`, the hour value is the binary64 quotient
`minutes / 60.0`, and ES `toFixed(1)` then picks the tenth nearest to the
exact value of that double — sign first, ties resolved to the larger
candidate.  Binary64 rounding commutes with negation, so the magnitude is
rounded and the sign of `diff` is reapplied, as ES `toFixed` itself does. -/
def toFixed1 (diff : Int) : String :=
  let mi := flRat diff.natAbs 60000
  let h := if mi.2 ≤ 0 then flRat mi.1 (60 * 2 ^ (-mi.2).toNat)
    else flRat (mi.1 * 2 ^ mi.2.toNat) 60
  let n := if h.2 ≤ 0 then (20 * h.1 + 2 ^ (-h.2).toNat) / 2 ^ ((-h.2).toNat + 1)
    else 10 * h.1 * 2 ^ h.2.toNat
  (if diff < 0 then "-" else "") ++ toString (n / 10) ++ "." ++ toString (n % 10)

/-- `humanizedDuration(start, end)` from src/date.js:
`diff = moment(end).diff(start)` is the signed integer millisecond
difference; `minutes = duration.asMinutes()` is the binary64 quotient
`fl (diff / 60000)`.  The guard `minutes <= 60 || minutes % 60 === 0` is
stated on integers: `fl (diff / 60000) ≤ 60` holds exactly when
`diff ≤ 3600000` (the rounding boundary above 60 is `60 + 2 ^ (-48)`, whose
tie rounds down to the even significand of 60, and no integer `diff` lands
strictly between), and the JS fractional remainder `minutes % 60` is zero
exactly when 3600000 divides `diff`, for every `diff` in the JS Date range
where the 60-minute multiples are exactly representable.
`duration.humanize()` is the external humanization routine, passed in as
`humanize`, a function of the signed difference. -/
def humanizedDuration (humanize : Int → String) (s e : Int) : String :=
  let diff := e - s
  if diff ≤ 3600000 ∨ diff % 3600000 = 0 then humanize diff
  else toFixed1 diff ++ " hours"

/-- C3 (amended): the short humanized phrase is returned when the signed
minute difference `end - start` is at most 60 minutes (in particular for
every negative span) or is an exact multiple of 60 minutes, and otherwise the
result is the hour value `minutes / 60` as the source computes it — through
double-precision division — rendered to one decimal by `toFixed(1)` and
followed by " hours"; a 90-minute span yields "1.5 hours" (while a 69-minute
span yields "1.1 hours", its double hour value lying just below 1.15). -/
theorem humanizedDuration_amended (humanize : Int → String) (s e : Int) :
    (e - s ≤ 3600000 ∨ (e - s) % 3600000 = 0 →
      humanizedDuration humanize s e = humanize (e - s)) ∧
    (¬(e - s ≤ 3600000 ∨ (e - s) % 3600000 = 0) →
      humanizedDuration humanize s e = toFixed1 (e - s) ++ " hours") := by
  unfold humanizedDuration
  constructor
  · intro h
    rw [if_pos h]
  · intro h
    rw [if_neg h]

set_option maxRecDepth 100000 in
/-- C3 witness: the amended claim applied at a 60-minute span (short phrase
branch), at a 90-minute span (which renders as "1.5 hours"), and at a
69-minute span (whose double hour value lies just below 1.15 and renders as
"1.1 hours"). -/
theorem humanizedDuration_witness :
    humanizedDuration (fun _ => "an hour") 0 3600000 = "an hour" ∧
    humanizedDuration (fun _ => "an hour") 0 5400000 = "1.5 hours" ∧
    humanizedDuration (fun _ => "an hour") 0 4140000 = "1.1 hours" :=
  ⟨(humanizedDuration_amended (fun _ => "an hour") 0 3600000).1 (by decide),
   ((humanizedDuration_amended (fun _ => "an hour") 0 5400000).2 (by decide)).trans
     (by decide),
   ((humanizedDuration_amended (fun _ => "an hour") 0 4140000).2 (by decide)).trans
     (by decide)⟩

/-- C3 counterexample: for a span of minus 90 minutes the absolute duration is
90 minutes — more than 60 and not a multiple of 60 — so the claim requires the
result "-1.5 hours", but the source's signed guard `minutes <= 60` accepts -90
and the short humanized phrase is returned instead. -/
theorem humanizedDuration_cex :
    humanizedDuration (fun _ => "an hour") 0 (-5400000) ≠ "-1.5 hours" := by
  decide

/-- A parsed date/time string, modelled from the spec (section 4.2
`parseInZone`): the wall-clock field values the string spells out, plus the
explicit UTC offset (in minutes) when the string carries zone/offset
information. -/
structure ParsedString where
  wall : Int
  explicitOffset : Option Int
  deriving DecidableEq

/-- Modelled from the spec: `moment.tz(str, zone)` — an explicit offset in the
string is honored (the zone is ignored for offset purposes), otherwise the
wall fields are interpreted in `zone`. -/
def momentTzParse (z : Zone) (p : ParsedString) : Int :=
  match p.explicitOffset with
  | some off => p.wall - off * 60000
  | none => fromWall z p.wall

/-- Modelled from the spec: the zone-naive `new Date(str)` parse — an explicit
offset is honored, otherwise the wall fields are interpreted in the default
environment zone. -/
def dateParse (defz : Zone) (p : ParsedString) : Int :=
  match p.explicitOffset with
  | some off => p.wall - off * 60000
  | none => fromWall defz p.wall

/-- `parseInZone(str, zone)` from src/timezones/timezones.js:
`zone ? moment.tz(str, zone).toDate() : new Date(str)` — a missing or empty
zone argument (JS falsy) is the `none` case. -/
def parseInZone (defz : Zone) (p : ParsedString) (zone : Option Zone) : Int :=
  match zone with
  | some z => momentTzParse z p
  | none => dateParse defz p

/-- C4 (amended): when the string carries an explicit offset,
`parseInZone(str, zone)` equals the zone-naive parse of the string; when it
does not, the result has the parsed wall-clock fields in `zone` provided some
instant attains those fields there (i.e. the wall time does not fall in a
spring-forward gap of `zone`); and with the zone argument omitted or empty the
result is the zone-naive parse under the environment default. -/
theorem parseInZone_amended (defz z : Zone) (p : ParsedString) :
    (p.explicitOffset.isSome = true → parseInZone defz p (some z) = dateParse defz p) ∧
    (p.explicitOffset = none → (∃ u, wallOf z u = p.wall) →
      wallOf z (parseInZone defz p (some z)) = p.wall) ∧
    parseInZone defz p none = dateParse defz p := by
  refine ⟨?_, ?_, rfl⟩
  · intro hsome
    unfold parseInZone momentTzParse dateParse
    cases hp : p.explicitOffset with
    | none => rw [hp] at hsome; cases hsome
    | some off => rfl
  · intro hnone hex
    obtain ⟨u, hu⟩ := hex
    have hred : parseInZone defz p (some z) = fromWall z p.wall := by
      unfold parseInZone momentTzParse
      rw [hnone]
    rw [hred]
    unfold wallOf Zone.offset at hu
    unfold wallOf fromWall Zone.offset
    split_ifs at hu ⊢ <;> omega

/-- C4 witness: the amended claim applied with a fixed +10:00 zone, at a
string with no explicit offset whose wall fields are attainable, and at a
string with an explicit offset. -/
theorem parseInZone_witness :
    wallOf (fixedZone 600) (parseInZone (fixedZone 0) ⟨0, none⟩ (some (fixedZone 600))) = 0 ∧
    parseInZone (fixedZone 0) ⟨0, some 0⟩ (some (fixedZone 600)) =
      dateParse (fixedZone 0) ⟨0, some 0⟩ :=
  ⟨(parseInZone_amended (fixedZone 0) (fixedZone 600) ⟨0, none⟩).2.1 rfl
      ⟨-36000000, by decide⟩,
   (parseInZone_amended (fixedZone 0) (fixedZone 600) ⟨0, some 0⟩).1 rfl⟩

/-- C4 counterexample: in a zone that springs forward from offset 0 to +60 at
instant 0, the wall time 1800000 (00:30 on the skipped hour) is attained by no
instant; parsing an offset-free string carrying those fields returns an
instant whose wall fields in the zone differ from the parsed fields, while the
claim demands they be equal. -/
theorem parseInZone_cex :
    wallOf ⟨0, 0, 60⟩ (parseInZone (fixedZone 0) ⟨1800000, none⟩ (some ⟨0, 0, 60⟩)) ≠
      1800000 := by
  decide

/-- The sort key `parseInt(nowM.tz(z).format('ZZ'))` from `sortZones` in
src/timezones/timezones.js: `format('ZZ')` renders the offset as a signed
HHMM string (for example +0530 or -0930) and `parseInt` reads it back, so the
key for an offset of `o` minutes is the signed number `100 * hours + minutes`
of its absolute hour/minute split. -/
def zzKey (o : Int) : Int :=
  if o < 0 then -(100 * ((-o) / 60) + (-o) % 60) else 100 * (o / 60) + o % 60

/-- The ordering used by `sortBy(zones, ['offset', 'name'])` (lodash): the
`offset` key (the `zzKey` reading) first, then the zone name ascending.  Zone
identifiers are ASCII, where the Lean lexicographic string order coincides
with the JS string comparison. -/
def zoneLE (offsetOf : String → Int) (a b : String) : Prop :=
  zzKey (offsetOf a) < zzKey (offsetOf b) ∨
    (zzKey (offsetOf a) = zzKey (offsetOf b) ∧ a ≤ b)

/-- The signed HHMM reading of an offset is strictly monotone in the offset,
so ordering by the `parseInt('ZZ')` key coincides with ordering by the offset
in minutes. -/
theorem zzKey_lt_iff (x y : Int) : zzKey x < zzKey y ↔ x < y := by
  unfold zzKey
  split_ifs <;> omega

instance zoneLE_total (offsetOf : String → Int) : IsTotal String (zoneLE offsetOf) := by
  constructor
  intro a b
  unfold zoneLE
  rcases lt_trichotomy (zzKey (offsetOf a)) (zzKey (offsetOf b)) with h | h | h
  · exact Or.inl (Or.inl h)
  · rcases le_total a b with hab | hba
    · exact Or.inl (Or.inr ⟨h, hab⟩)
    · exact Or.inr (Or.inr ⟨h.symm, hba⟩)
  · exact Or.inr (Or.inl h)

instance zoneLE_trans (offsetOf : String → Int) : IsTrans String (zoneLE offsetOf) := by
  constructor
  intro a b c hab hbc
  unfold zoneLE at hab hbc ⊢
  rcases hab with h1 | ⟨h1, h1s⟩ <;> rcases hbc with h2 | ⟨h2, h2s⟩
  · exact Or.inl (h1.trans h2)
  · exact Or.inl (h2 ▸ h1)
  · exact Or.inl (h1 ▸ h2)
  · exact Or.inr ⟨h1.trans h2, h1s.trans h2s⟩

instance zoneLE_decidable (offsetOf : String → Int) : DecidableRel (zoneLE offsetOf) := by
  intro a b
  unfold zoneLE
  infer_instance

/-- `sortZones(zones)` from src/timezones/timezones.js: tags each identifier
with the `parseInt(format('ZZ'))` reading of its current offset and sorts by
that key then by name (lodash `sortBy`, an ascending stable sort).  The
current-offset lookup performed through the external moment library is passed
in as `offsetOf` (minutes). -/
def sortZones (offsetOf : String → Int) (zones : List String) : List String :=
  List.insertionSort (zoneLE offsetOf) zones

/-- `COMMON_ZONES` from src/timezones/timezones.js: the frozen module-level
list `sortZones(Object.keys(TIMEZONES))`, computed once at load; the zone
name table is external (timezones.json) and its key list is passed in. -/
def COMMON_ZONES (offsetOf : String → Int) (tableKeys : List String) : List String :=
  sortZones offsetOf tableKeys

/-- `getCommonZones()` from src/timezones/timezones.js: returns the memoized
`COMMON_ZONES` list. -/
def getCommonZones (offsetOf : String → Int) (tableKeys : List String) : List String :=
  COMMON_ZONES offsetOf tableKeys

/-- C5: `getCommonZones()` returns exactly the identifiers of the zone name
table (a permutation of its key list), ordered non-decreasing by each zone's
current UTC offset with ties between equal offsets ordered lexicographically
ascending by identifier, and every call returns the one list computed from
the table. -/
theorem getCommonZones_spec (offsetOf : String → Int) (tableKeys : List String) :
    (getCommonZones offsetOf tableKeys).Perm tableKeys ∧
    (getCommonZones offsetOf tableKeys).Sorted
      (fun a b => offsetOf a < offsetOf b ∨ (offsetOf a = offsetOf b ∧ a ≤ b)) ∧
    getCommonZones offsetOf tableKeys = COMMON_ZONES offsetOf tableKeys := by
  refine ⟨List.perm_insertionSort _ _, ?_, rfl⟩
  have hs := List.sorted_insertionSort (zoneLE offsetOf) tableKeys
  refine hs.imp ?_
  intro a b hab
  rcases hab with h | ⟨h, hsle⟩
  · exact Or.inl ((zzKey_lt_iff _ _).mp h)
  · refine Or.inr ⟨?_, hsle⟩
    rcases lt_trichotomy (offsetOf a) (offsetOf b) with ho | ho | ho
    · exact absurd ((zzKey_lt_iff _ _).mpr ho) (by omega)
    · exact ho
    · exact absurd ((zzKey_lt_iff _ _).mpr ho) (by omega)

/-- Two-digit zero-padded rendering of a number below 100. -/
def pad2 (n : Nat) : String :=
  if n < 10 then "0" ++ toString n else toString n

/-- Modelled from the spec: `moment.tz(Date.now(), zone).format('Z')` renders
the zone's current signed offset of `o` minutes as a ±HH:MM string. -/
def formatZ (o : Int) : String :=
  (if o < 0 then "-" else "+") ++ pad2 (o.natAbs / 60) ++ ":" ++ pad2 (o.natAbs % 60)

/-- The character-list replacement performed by `zone.replace(/_/, ' ')` in
`beautify` from src/timezones/timezones.js: the regex is not global, so only
the first underscore is replaced by a space. -/
def replaceUnderscore : List Char → List Char
  | [] => []
  | c :: cs => if c = '_' then ' ' :: cs else c :: replaceUnderscore cs

/-- `beautify(zone)` from src/timezones/timezones.js. -/
def beautify (zone : String) : String :=
  ⟨replaceUnderscore zone.data⟩

/-- `humanizeZone(zone)` from src/timezones/timezones.js: the current-offset
string plus the friendly name from the zone name table (`TIMEZONES[zone]`,
external timezones.json passed in as `table`), falling back to
`beautify(zone)`; the current-offset lookup through moment is passed in as
`offsetOf` (minutes). -/
def humanizeZone (table : String → Option String) (offsetOf : String → Int)
    (zone : String) : String :=
  "(GMT" ++ formatZ (offsetOf zone) ++ ") " ++ ((table zone).getD (beautify zone))

theorem replaceUnderscore_eq (l : List Char) :
    ('_' ∉ l ∧ replaceUnderscore l = l) ∨
    ∃ a b : List Char, l = a ++ '_' :: b ∧ '_' ∉ a ∧
      replaceUnderscore l = a ++ ' ' :: b := by
  induction l with
  | nil => exact Or.inl ⟨List.not_mem_nil _, rfl⟩
  | cons c cs ih =>
    by_cases hc : c = '_'
    · refine Or.inr ⟨[], cs, by simp [hc], List.not_mem_nil _, ?_⟩
      simp [replaceUnderscore, hc]
    · rcases ih with ⟨h1, h2⟩ | ⟨a, b, h1, h2, h3⟩
      · refine Or.inl ⟨?_, ?_⟩
        · simp only [List.mem_cons, not_or]
          exact ⟨fun h => hc h.symm, h1⟩
        · simp [replaceUnderscore, hc, h2]
      · refine Or.inr ⟨c :: a, b, by simp [h1], ?_, ?_⟩
        · simp only [List.mem_cons, not_or]
          exact ⟨fun h => hc h.symm, h2⟩
        · simp [replaceUnderscore, hc, h3]

/-- C6 (amended): `humanizeZone(z)` returns "(GMT<offset>) <name>" where
<offset> is the current signed offset as ±HH:MM and <name> is the table's
friendly name when present and otherwise `z` with only its first underscore
(if any) replaced by a space: the fallback name either equals `z` when `z`
has no underscore, or splits as the underscore-free text before the first
underscore, a space, and the untouched remainder. -/
theorem humanizeZone_amended (table : String → Option String)
    (offsetOf : String → Int) (zone : String) :
    humanizeZone table offsetOf zone =
      "(GMT" ++ formatZ (offsetOf zone) ++ ") " ++ ((table zone).getD (beautify zone)) ∧
    (('_' ∉ zone.data ∧ beautify zone = zone) ∨
      ∃ a b : List Char, zone.data = a ++ '_' :: b ∧ '_' ∉ a ∧
        (beautify zone).data = a ++ ' ' :: b) := by
  refine ⟨rfl, ?_⟩
  rcases replaceUnderscore_eq zone.data with ⟨h1, h2⟩ | ⟨a, b, h1, h2, h3⟩
  · refine Or.inl ⟨h1, ?_⟩
    unfold beautify
    rw [h2]
  · exact Or.inr ⟨a, b, h1, h2, h3⟩

/-- C6 counterexample: a zone identifier with two underscores that is absent
from the name table keeps its second underscore — the claim's all-underscores
replacement does not match the source's single replacement. -/
theorem humanizeZone_cex :
    humanizeZone (fun _ => none) (fun _ => 0) "A_B_C" ≠ "(GMT+00:00) A B C" := by
  decide

end RTU
